import Mathlib

/-!
Shallow embedding of the excalidraw-sync synchronization engine:
the `S3Connector` class of `src/connectors/s3connector.ts` and the
watch/sync loop of `src/extension.ts`.

Modelling conventions:
the mutable fields of the `S3Connector` instance together with its
collaborators (the `globalState` memento, the `SecretStorage`, the
JavaScript `Map`s used as settings/client caches) are gathered into one
`ConnState` record.  The maps and the secret store are only ever observed
through `get`/`set`/`delete`, so they are modelled as association lists
read through `lookupA`/`insertA`/`eraseA`.  Remote S3 calls are recorded
as `Ev` events; local filesystem time stamps are natural numbers.
-/

namespace ExSync

/-- Association-list lookup; models `Map.get` and `SecretStorage.get`. -/
def lookupA {α : Type} (k : String) : List (String × α) → Option α
  | [] => none
  | (k', v) :: rest => if k' = k then some v else lookupA k rest

/-- Association-list removal; models `Map.delete` and `SecretStorage.delete`. -/
def eraseA {α : Type} (k : String) : List (String × α) → List (String × α)
  | [] => []
  | (k', v) :: rest => if k' = k then eraseA k rest else (k', v) :: eraseA k rest

/-- Association-list insert/overwrite; models `Map.set` and
`SecretStorage.store` (faithful up to the `lookupA` observation, which is
the only way the source reads these containers). -/
def insertA {α : Type} (k : String) (v : α) (l : List (String × α)) : List (String × α) :=
  (k, v) :: eraseA k l

/-- Mirrors class `TargetSettings` of s3connector.ts: three string fields
initialised to the empty string. -/
structure TargetSettings where
  accessKeyId : String := ""
  secretAccessKey : String := ""
  host : String := ""
  deriving DecidableEq, Repr

/-- The configuration object passed to `new S3Client` in `getClient`. -/
structure S3ClientCfg where
  region : String
  endpoint : String
  accessKeyId : String
  secretAccessKey : String
  forcePathStyle : Bool
  deriving DecidableEq, Repr

/-- The result of the credential-entry webview (`S3SettingsResult` in
s3SettingsPrompt.ts); the prompt returns `none` when the user cancels. -/
structure S3SettingsResult where
  accessKeyId : String
  secretAccessKey : String
  host : String
  deriving DecidableEq, Repr

/-- The mutable state of an `S3Connector` instance and its collaborators:
`targets` (the in-memory list), `persistedTargets` (the copy the code keeps
under the `globalState` key "s3Targets"), the `settings` and `clients`
caches, the content of the `SecretStorage`, the current target/bucket
selection, and `globalStorageUri` as a path string. -/
structure ConnState where
  targets : List String
  persistedTargets : List String
  settings : List (String × TargetSettings)
  clients : List (String × S3ClientCfg)
  secretStore : List (String × String)
  currentTarget : Option String
  currentBucket : Option String
  storagePath : String
  deriving DecidableEq, Repr

/-- Embeds `S3Connector.verifySettings`.  The source lazily copies each of
the three secrets into the cached `TargetSettings` object, returning
`false` at the first field that is missing or empty; because the settings
object is stored in the map by reference, updates made before an early
return stay visible, which the embedding reflects by re-inserting the
partially updated record at every exit point.  JavaScript truthiness of a
string is emptiness, hence the `= ""` tests. -/
def verifySettings (s : ConnState) (t : String) : ConnState × Bool :=
  let st0 := (lookupA t s.settings).getD ⟨"", "", ""⟩
  let finish := fun (st : TargetSettings) (ok : Bool) =>
    ({s with settings := insertA t st s.settings}, ok)
  let r1 : TargetSettings × Bool :=
    if st0.accessKeyId = "" then
      match lookupA (t ++ "_s3AccessKeyId") s.secretStore with
      | some v => if v.length > 0 then ({st0 with accessKeyId := v}, true) else (st0, false)
      | none => (st0, false)
    else (st0, true)
  if r1.2 then
    let r2 : TargetSettings × Bool :=
      if r1.1.secretAccessKey = "" then
        match lookupA (t ++ "_s3SecretAccessKey") s.secretStore with
        | some v => if v.length > 0 then ({r1.1 with secretAccessKey := v}, true) else (r1.1, false)
        | none => (r1.1, false)
      else (r1.1, true)
    if r2.2 then
      let r3 : TargetSettings × Bool :=
        if r2.1.host = "" then
          match lookupA (t ++ "_s3Host") s.secretStore with
          | some v => if v.length > 0 then ({r2.1 with host := v}, true) else (r2.1, false)
          | none => (r2.1, false)
        else (r2.1, true)
      finish r3.1 r3.2
    else finish r2.1 false
  else finish r1.1 false

/-- Embeds `S3Connector.getClient`.  The source writes
`if (!this.verifySettings(target))` WITHOUT awaiting the call: the tested
value is the Promise object itself, which is always truthy, so the
configuration-error branch is dead code.  The only effect of the call that
is visible before `getClient` finishes (the async body runs synchronously
up to the first `await` inside `verifySettings`, which is reached before
any secret value is copied) is that a settings entry for the target exists
in the cache, empty if it was absent.  The embedding performs exactly that
ensure-step and then continues with the cached-client check, settings
lookup, and path-style client construction of the source. -/
def getClient (s : ConnState) (t : String) : ConnState × Except String S3ClientCfg :=
  let s1 := {s with settings := insertA t ((lookupA t s.settings).getD ⟨"", "", ""⟩) s.settings}
  match lookupA t s1.clients with
  | some c => (s1, .ok c)
  | none =>
    match lookupA t s1.settings with
    | none => (s1, .error ("S3 settings not found for " ++ t))
    | some st =>
      let c : S3ClientCfg :=
        { region := "EU", endpoint := st.host, accessKeyId := st.accessKeyId,
          secretAccessKey := st.secretAccessKey, forcePathStyle := true }
      ({s1 with clients := insertA t c s1.clients}, .ok c)

/-- Embeds `S3Connector.selectBucket`. -/
def selectBucket (s : ConnState) (b : String) : ConnState :=
  {s with currentBucket := some b}

/-- Embeds `S3Connector.setTarget`: sets the current target and clears the
bucket selection. -/
def setTarget (s : ConnState) (t : String) : ConnState :=
  {s with currentTarget := some t, currentBucket := none}

/-- Embeds `S3Connector.removeTarget`: filters the target out of the list,
persists the new list, moves the current target to the first remaining one
(or none) when it was the removed one, and drops settings, client and the
three secrets.  Note that the source does NOT touch `currentBucket`. -/
def removeTarget (s : ConnState) (t : String) : ConnState :=
  let ts := s.targets.filter (fun x => x ≠ t)
  let ct := if s.currentTarget = some t then ts.head? else s.currentTarget
  let secrets :=
    eraseA (t ++ "_s3Host")
      (eraseA (t ++ "_s3SecretAccessKey") (eraseA (t ++ "_s3AccessKeyId") s.secretStore))
  {s with targets := ts, persistedTargets := ts, currentTarget := ct,
          settings := eraseA t s.settings, clients := eraseA t s.clients,
          secretStore := secrets}

/-- Embeds `S3Connector.addTarget` with the prompt outcome as a parameter
(`none` models a cancelled `S3SettingsPrompt.show`).  The source pushes the
name optimistically and persists, then on cancel filters the name out
again and persists; on success it stores the three secrets and caches the
settings. -/
def addTarget (s : ConnState) (target : String) (promptResult : Option S3SettingsResult) :
    ConnState :=
  let s1 := {s with targets := s.targets ++ [target]}
  let s2 := {s1 with persistedTargets := s1.targets}
  match promptResult with
  | none =>
    let ts := s2.targets.filter (fun x => x ≠ target)
    {s2 with targets := ts, persistedTargets := ts}
  | some r =>
    let secrets :=
      insertA (target ++ "_s3Host") r.host
        (insertA (target ++ "_s3SecretAccessKey") r.secretAccessKey
          (insertA (target ++ "_s3AccessKeyId") r.accessKeyId s2.secretStore))
    let s3 := {s2 with secretStore := secrets}
    {s3 with settings := insertA target ⟨r.accessKeyId, r.secretAccessKey, r.host⟩ s3.settings}

/-- Remote S3 calls issued by the connector, recorded as events. -/
inductive Ev where
  | listPage (bucket : String)
  | delObject (bucket : String) (key : String)
  | delBucket (bucket : String)
  | putObject (bucket : String) (key : String) (meta : Option Nat)
  deriving DecidableEq, Repr

/-- Extracts the key of an object-delete event. -/
def delObjectKey? : Ev → Option String
  | .delObject _ k => some k
  | _ => none

/-- Embeds the purge loop of `S3Connector.deleteBucket`: a `do`/`while`
over `ListObjectsV2` pages that deletes each listed object individually.
`ps` is the store's page limit (positive for a real store); the
continuation token is returned by the store exactly when keys remain past
the current page, which for a listing of `keys` means `ps < keys.length`. -/
def purgeObjects (ps : Nat) (b : String) (keys : List String) : List Ev :=
  Ev.listPage b ::
    ((keys.take ps).map (fun k => Ev.delObject b k) ++
      (if h : 0 < ps ∧ ps < keys.length then purgeObjects ps b (keys.drop ps) else []))
termination_by keys.length
decreasing_by
  simp only [List.length_drop]
  omega

/-- Embeds `S3Connector.deleteBucket`: early return when no target is
selected; otherwise obtain the client, purge every object page by page,
and finally issue the single `DeleteBucketCommand`. -/
def deleteBucketConn (s : ConnState) (b : String) (keys : List String) (ps : Nat) :
    ConnState × Except String (List Ev) :=
  match s.currentTarget with
  | none => (s, .ok [])
  | some t =>
    match getClient s t with
    | (s1, .error e) => (s1, .error e)
    | (s1, .ok _) => (s1, .ok (purgeObjects ps b keys ++ [Ev.delBucket b]))

/-- Embeds the state effect and the issued call of `S3Connector.updateFile`:
with no target or bucket selected it shows a message and returns without
any call; otherwise it obtains the client and issues one `PutObjectCommand`
carrying the local modification time as upload metadata.  Rejection of the
network call itself is modelled by the push-failure oracle of the watch
loop below. -/
def updateFile (s : ConnState) (key : String) (localMtime : Nat) : ConnState × List Ev :=
  match s.currentTarget, s.currentBucket with
  | some t, some b =>
    match getClient s t with
    | (s1, .error _) => (s1, [])
    | (s1, .ok _) => (s1, [Ev.putObject b key (some localMtime)])
  | _, _ => (s, [])

/-- A directory node: a name and an optional parent directory, as in class
`Directory` of s3connector.ts. -/
inductive DirNode where
  | mk (dname : String) (parentDir : Option DirNode)

/-- Name of a directory node. -/
def DirNode.dname : DirNode → String
  | .mk n _ => n

/-- Parent of a directory node. -/
def DirNode.parentDir : DirNode → Option DirNode
  | .mk _ p => p

/-- Mirrors the common fields of abstract class `FileObject`. -/
structure FileObject where
  name : String
  isDirectory : Bool
  parentDir : Option DirNode

/-- The `key.endsWith('/')` test of the source, which is only ever applied
to the single-character suffix "/": true iff the last character is a
slash. -/
def endsWithSlash (s : String) : Bool :=
  match s.data.getLast? with
  | some c => c = '/'
  | none => false

/-- The parent-chain walk inside `FileObject.getObjectKey`: starting from
the nearest ancestor, each ancestor name is prepended with a `/`. -/
def prependAncestors : DirNode → String → String
  | DirNode.mk nm pd, n =>
    match pd with
    | none => nm ++ "/" ++ n
    | some d => prependAncestors d (nm ++ "/" ++ n)

/-- Embeds `FileObject.getObjectKey`: ancestor names joined with `/`, then
a trailing `/` appended iff the node is a directory and the name does not
already end with one. -/
def getObjectKey (f : FileObject) : String :=
  let base :=
    match f.parentDir with
    | none => f.name
    | some d => prependAncestors d f.name
  if f.isDirectory && !(endsWithSlash base) then base ++ "/" else base

/-- Views a directory node as a `FileObject` (class `Directory` extends
`FileObject` with `isDirectory = true`). -/
def dirFO (d : DirNode) : FileObject :=
  ⟨d.dname, true, d.parentDir⟩

/-- The object key actually uploaded by `S3Connector.addDirectory`: the
source computes the derived key and then applies
`key.endsWith('/') ? key + '/' : key`, exactly as transcribed here. -/
def addDirectoryKey (d : DirNode) : String :=
  let key := getObjectKey (dirFO d)
  if endsWithSlash key then key ++ "/" else key

/-- Embeds `S3Connector.getAndSyncLocalFilePath` together with its helper
`getUpdateTimestamp`.  `localMtime` is the modification time of the cached
local copy (`none` when `fileExists` reports no copy), `remoteTs` the
custom `lastmodified` upload metadata returned by `HeadObject` (`none`
when the field is absent), and `now` the filesystem clock stamped onto any
`writeFile` this call performs.  The result carries the returned uri, the
local copy's new modification time, and the number of full-content S3
fetches performed by the call. -/
def getAndSyncLocalFilePath (s : ConnState) (key : String)
    (localMtime : Option Nat) (remoteTs : Option Nat) (now : Nat) :
    Except String (String × Option Nat × Nat) :=
  match s.currentTarget, s.currentBucket with
  | some t, some b =>
    let uri := s.storagePath ++ "/" ++ t ++ "/" ++ b ++ "/" ++ key
    match localMtime with
    | none => .ok (uri, some now, 1)
    | some m =>
      match remoteTs with
      | some ts => if m < ts then .ok (uri, some now, 1) else .ok (uri, some m, 0)
      | none => .ok (uri, some m, 0)
  | _, _ => .error "No S3 target or bucket selected"

/-- One watched artifact as seen by the sync loop of extension.ts: the map
key `uri`, the `S3FileItem` fields consulted by the loop (`isDirectory`,
whether `file` is present, the `isSyncing` flag), the entry of the
`_updateTimes` map (`lastUpdate`), the modification time the cycle reads
from `fs.stat` (`mtime`), and an oracle `pushFails` telling whether the
push issued for this entry would reject. -/
structure WatchEntry where
  uri : String
  isDirectory : Bool
  hasFile : Bool
  mtime : Nat
  lastUpdate : Option Nat
  isSyncing : Bool
  pushFails : Bool
  deriving DecidableEq, Repr

/-- Embeds one execution of the `syncInterval` callback of extension.ts
over the watched entries in iteration order, starting at position `i`.
Per entry: directory entries and entries without a file are skipped; an
entry whose observed `mtime` is strictly later than its `lastUpdate` gets
`isSyncing` set, is pushed, gets `isSyncing` cleared and `lastUpdate` set
to the observed `mtime`.  The loop body contains no `try`/`catch`, so a
rejected push ends the whole callback: the failing entry keeps
`isSyncing = true` and its old `lastUpdate`, and the remaining entries are
not visited.  Returns the positions pushed, the entries after the cycle,
and whether the cycle was aborted by a failure. -/
def runSyncCycleFrom (i : Nat) : List WatchEntry → List Nat × List WatchEntry × Bool
  | [] => ([], [], false)
  | e :: rest =>
    if e.isDirectory || !e.hasFile then
      let r := runSyncCycleFrom (i + 1) rest
      (r.1, e :: r.2.1, r.2.2)
    else
      match e.lastUpdate with
      | none =>
        let r := runSyncCycleFrom (i + 1) rest
        (r.1, e :: r.2.1, r.2.2)
      | some lu =>
        if lu < e.mtime then
          if e.pushFails then
            ([], {e with isSyncing := true} :: rest, true)
          else
            let r := runSyncCycleFrom (i + 1) rest
            (i :: r.1, {e with isSyncing := false, lastUpdate := some e.mtime} :: r.2.1, r.2.2)
        else
          let r := runSyncCycleFrom (i + 1) rest
          (r.1, e :: r.2.1, r.2.2)

/-- One full sync cycle over the watch set. -/
def runSyncCycle (es : List WatchEntry) : List Nat × List WatchEntry × Bool :=
  runSyncCycleFrom 0 es

/-- The effect of a non-aborted cycle on a single entry. -/
def stepEntry (e : WatchEntry) : WatchEntry :=
  if e.isDirectory || !e.hasFile then e
  else
    match e.lastUpdate with
    | none => e
    | some lu => if lu < e.mtime then {e with isSyncing := false, lastUpdate := some e.mtime} else e

/-- Whether the cycle pushes an entry: a file entry whose observed
modification time is strictly later than its recorded last update. -/
def triggersPush (e : WatchEntry) : Bool :=
  !(e.isDirectory || !e.hasFile) &&
    (match e.lastUpdate with
     | none => false
     | some lu => decide (lu < e.mtime))

/-- The positions a non-aborted cycle pushes, starting at position `i`. -/
def pushes (i : Nat) : List WatchEntry → List Nat
  | [] => []
  | e :: rest => if triggersPush e then i :: pushes (i + 1) rest else pushes (i + 1) rest

/-- Rewrites the `isSyncing` flag of an entry. -/
def setSyncingFlag (b : Bool) (e : WatchEntry) : WatchEntry :=
  {e with isSyncing := b}

/-- The event trace of a successful remote operation. -/
def okEvents : Except String (List Ev) → List Ev
  | .ok l => l
  | .error _ => []

/-- The local modification time a resolve call leaves behind. -/
def resolveMtime : Except String (String × Option Nat × Nat) → Option Nat
  | .ok (_, m, _) => m
  | .error _ => none

/-- The number of full-content fetches a resolve call performed. -/
def resolveFetches : Except String (String × Option Nat × Nat) → Nat
  | .ok (_, _, n) => n
  | .error _ => 0

/-- The local path a resolve call returned, if it succeeded. -/
def resolveUri : Except String (String × Option Nat × Nat) → Option String
  | .ok (u, _, _) => some u
  | .error _ => none

/-- A configured sample connector state for concrete instantiations:
one target "t" which is current, bucket "bkt" selected, empty caches and
an empty secret store. -/
def sampleState : ConnState :=
  { targets := ["t"], persistedTargets := ["t"], settings := [], clients := [],
    secretStore := [], currentTarget := some "t", currentBucket := some "bkt",
    storagePath := "/store" }

/-- A state whose target list already contains "a", with "a" current. -/
def dupState : ConnState :=
  { targets := ["a"], persistedTargets := ["a"], settings := [], clients := [],
    secretStore := [], currentTarget := some "a", currentBucket := none,
    storagePath := "/store" }

/-- Two configured targets, the first current, with one of its buckets
selected. -/
def twoTargets : ConnState :=
  { targets := ["a", "x"], persistedTargets := ["a", "x"], settings := [], clients := [],
    secretStore := [], currentTarget := some "a", currentBucket := some "b",
    storagePath := "/store" }

/-- A root-level directory named "docs". -/
def docsDir : DirNode := DirNode.mk "docs" none

/-- A freshly modified watched file entry (mtime 5, last synced at 3). -/
def entryFresh : WatchEntry :=
  ⟨"file:///a.excalidraw.json", false, true, 5, some 3, false, false⟩

/-- A watched entry observed while its syncing flag is still true, with a
newer local modification. -/
def entryFlagged : WatchEntry :=
  ⟨"file:///b.excalidraw.json", false, true, 5, some 3, true, false⟩

/-- A watched entry with a newer local modification whose push rejects. -/
def entryFailing : WatchEntry :=
  ⟨"file:///c.excalidraw.json", false, true, 5, some 3, false, true⟩

/-- A healthy watched entry with a newer local modification. -/
def entryHealthy : WatchEntry :=
  ⟨"file:///d.excalidraw.json", false, true, 7, some 2, false, false⟩

lemma lookupA_insertA {α : Type} (k : String) (v : α) (l : List (String × α)) :
    lookupA k (insertA k v l) = some v := by
  simp [insertA, lookupA]

/-- Extracting the deleted keys from the events of a page purge. -/
lemma filterMap_delObj (b : String) (l : List String) :
    (l.map (fun k => Ev.delObject b k)).filterMap delObjectKey? = l := by
  induction l with
  | nil => rfl
  | cons k l ih => simp [delObjectKey?, ih]

/-- Counting object-delete events is the length of the extracted key list. -/
lemma countP_delObj (l : List Ev) :
    l.countP (fun e => (delObjectKey? e).isSome) = (l.filterMap delObjectKey?).length := by
  induction l with
  | nil => rfl
  | cons e l ih =>
    cases he : delObjectKey? e <;>
      simp [List.countP_cons, List.filterMap_cons, he, ih]

/-- The purge loop of `deleteBucket` deletes exactly the listed keys, in
listing order, and never issues a bucket-delete call itself. -/
lemma purgeObjects_spec (ps : Nat) (b : String) (hps : 0 < ps) :
    ∀ (n : Nat) (keys : List String), keys.length ≤ n →
      (purgeObjects ps b keys).filterMap delObjectKey? = keys ∧
      ∀ bb, Ev.delBucket bb ∉ purgeObjects ps b keys := by
  intro n
  induction n with
  | zero =>
    intro keys hk
    have hnil : keys = [] := List.length_eq_zero.mp (Nat.le_zero.mp hk)
    subst hnil
    rw [purgeObjects]
    constructor
    · simp [delObjectKey?]
    · intro bb h
      simp [delObjectKey?] at h
  | succ n ih =>
    intro keys hk
    rw [purgeObjects]
    by_cases hc : 0 < ps ∧ ps < keys.length
    · rw [dif_pos hc]
      have hlen : (keys.drop ps).length ≤ n := by
        rw [List.length_drop]
        omega
      obtain ⟨ih1, ih2⟩ := ih (keys.drop ps) hlen
      constructor
      · rw [List.filterMap_cons]
        simp only [delObjectKey?]
        rw [List.filterMap_append, filterMap_delObj, ih1, List.take_append_drop]
      · intro bb h
        rcases List.mem_cons.mp h with h1 | h2
        · exact Ev.noConfusion h1
        · rcases List.mem_append.mp h2 with h3 | h4
          · rcases List.mem_map.mp h3 with ⟨k, _, hkk⟩
            exact Ev.noConfusion hkk
          · exact ih2 bb h4
    · rw [dif_neg hc]
      have hlen : keys.length ≤ ps := by omega
      constructor
      · rw [List.filterMap_cons]
        simp only [delObjectKey?]
        rw [List.append_nil, filterMap_delObj, List.take_of_length_le hlen]
      · intro bb h
        rcases List.mem_cons.mp h with h1 | h2
        · exact Ev.noConfusion h1
        · rw [List.append_nil] at h2
          rcases List.mem_map.mp h2 with ⟨k, _, hkk⟩
          exact Ev.noConfusion hkk

/-- The `getClient` guard is dead code (the source tests an unawaited
Promise), so the call always produces a client. -/
lemma getClient_ok (s : ConnState) (t : String) :
    ∃ s1 c, getClient s t = (s1, Except.ok c) := by
  unfold getClient
  dsimp only
  cases h : lookupA t s.clients with
  | some c => exact ⟨_, c, rfl⟩
  | none =>
    simp only [lookupA_insertA]
    exact ⟨_, _, rfl⟩

/-- `getClient` only writes the settings and client caches. -/
lemma getClient_frame (s : ConnState) (t : String) :
    (getClient s t).1.targets = s.targets ∧
    (getClient s t).1.persistedTargets = s.persistedTargets ∧
    (getClient s t).1.secretStore = s.secretStore ∧
    (getClient s t).1.currentTarget = s.currentTarget ∧
    (getClient s t).1.currentBucket = s.currentBucket ∧
    (getClient s t).1.storagePath = s.storagePath := by
  unfold getClient
  dsimp only
  cases h : lookupA t s.clients with
  | some c => exact ⟨rfl, rfl, rfl, rfl, rfl, rfl⟩
  | none => simp [lookupA_insertA]

/-- Pushed positions never precede the cycle's starting position. -/
lemma pushes_ge (es : List WatchEntry) : ∀ i j, j ∈ pushes i es → i ≤ j := by
  induction es with
  | nil =>
    intro i j h
    simp [pushes] at h
  | cons e rest ih =>
    intro i j h
    simp only [pushes] at h
    by_cases ht : triggersPush e = true
    · rw [if_pos ht] at h
      rcases List.mem_cons.mp h with h1 | h2
      · omega
      · have := ih (i + 1) j h2
        omega
    · rw [if_neg ht] at h
      have := ih (i + 1) j h
      omega

/-- In a non-aborted cycle an entry's position is pushed once when it
triggers and never otherwise. -/
lemma pushes_count (es : List WatchEntry) :
    ∀ i k (hk : k < es.length),
      (pushes i es).count (i + k) =
        if triggersPush (es.get ⟨k, hk⟩) then 1 else 0 := by
  induction es with
  | nil =>
    intro i k hk
    simp at hk
  | cons e rest ih =>
    intro i k hk
    cases k with
    | zero =>
      have hnm : (i + 0) ∉ pushes (i + 1) rest := by
        intro hmem
        have := pushes_ge rest (i + 1) _ hmem
        omega
      simp only [pushes, List.get]
      by_cases ht : triggersPush e = true
      · rw [if_pos ht, if_pos ht]
        rw [List.count_cons]
        rw [List.count_eq_zero.mpr hnm]
        simp
      · rw [if_neg ht, if_neg ht]
        exact List.count_eq_zero.mpr hnm
    | succ k =>
      have h2 : k < rest.length := Nat.lt_of_succ_lt_succ hk
      have hrw : i + (k + 1) = (i + 1) + k := by omega
      simp only [pushes, List.get]
      by_cases ht : triggersPush e = true
      · rw [if_pos ht, List.count_cons]
        have hne : ¬ (i == i + (k + 1)) = true := by
          simp
        rw [if_neg hne, Nat.add_zero, hrw]
        exact ih (i + 1) k h2
      · rw [if_neg ht, hrw]
        exact ih (i + 1) k h2

/-- When every push succeeds, a cycle is not aborted: it pushes exactly the
triggering positions and maps `stepEntry` over the watch set. -/
lemma runSyncCycleFrom_ok (es : List WatchEntry) :
    ∀ i, (∀ e ∈ es, e.pushFails = false) →
      runSyncCycleFrom i es = (pushes i es, es.map stepEntry, false) := by
  induction es with
  | nil =>
    intro i _
    rfl
  | cons e rest ih =>
    intro i hok
    have hoke : e.pushFails = false := hok e (List.mem_cons_self e rest)
    have hokr : ∀ x ∈ rest, x.pushFails = false := fun x hx => hok x (List.mem_cons_of_mem e hx)
    have ihr := ih (i + 1) hokr
    obtain ⟨u, dir, hasf, mt, lu?, sy, pf⟩ := e
    simp only at hoke
    subst hoke
    by_cases h1 : (dir || !hasf) = true
    · simp [runSyncCycleFrom, pushes, stepEntry, triggersPush, h1, ihr]
    · cases lu? with
      | none => simp [runSyncCycleFrom, pushes, stepEntry, triggersPush, h1, ihr]
      | some lu =>
        by_cases h2 : lu < mt
        · simp [runSyncCycleFrom, pushes, stepEntry, triggersPush, h1, h2, ihr]
        · simp [runSyncCycleFrom, pushes, stepEntry, triggersPush, h1, h2, ihr]

/-- A triggering entry is a file entry with a recorded last update strictly
older than the observed modification time. -/
lemma triggers_spec (e : WatchEntry) (h : triggersPush e = true) :
    (e.isDirectory || !e.hasFile) = false ∧ ∃ lu, e.lastUpdate = some lu ∧ lu < e.mtime := by
  unfold triggersPush at h
  cases hlu : e.lastUpdate with
  | none =>
    rw [hlu] at h
    simp at h
  | some lu =>
    rw [hlu] at h
    simp only [Bool.and_eq_true, decide_eq_true_eq] at h
    exact ⟨by simpa using h.1, lu, rfl, h.2⟩

/-- A failing push ends the cycle: the prefix before it is processed as
usual, the failing entry keeps `isSyncing = true` and its old timestamp,
and everything after it is left untouched and unpushed. -/
lemma runSyncCycleFrom_abort (post : List WatchEntry) (e : WatchEntry)
    (he : triggersPush e = true) (hef : e.pushFails = true) :
    ∀ (pre : List WatchEntry) (i : Nat), (∀ x ∈ pre, x.pushFails = false) →
      runSyncCycleFrom i (pre ++ e :: post) =
        (pushes i pre, pre.map stepEntry ++ ({e with isSyncing := true} :: post), true) := by
  intro pre
  induction pre with
  | nil =>
    intro i _
    obtain ⟨h1, lu, hlu, hm⟩ := triggers_spec e he
    obtain ⟨u, dir, hasf, mt, lu?, sy, pf⟩ := e
    simp only at h1 hlu hm hef
    subst hlu
    subst hef
    simp [runSyncCycleFrom, pushes, h1, hm]
  | cons x pre ih =>
    intro i hok
    have hokx : x.pushFails = false := hok x (List.mem_cons_self x pre)
    have hokr : ∀ y ∈ pre, y.pushFails = false := fun y hy => hok y (List.mem_cons_of_mem x hy)
    have ihr := ih (i + 1) hokr
    obtain ⟨u, dir, hasf, mt, lu?, sy, pf⟩ := x
    simp only at hokx
    subst hokx
    by_cases h1 : (dir || !hasf) = true
    · simp [List.cons_append, runSyncCycleFrom, pushes, stepEntry, triggersPush, h1, ihr]
    · cases lu? with
      | none => simp [List.cons_append, runSyncCycleFrom, pushes, stepEntry, triggersPush, h1, ihr]
      | some lu =>
        by_cases h2 : lu < mt
        · simp [List.cons_append, runSyncCycleFrom, pushes, stepEntry, triggersPush, h1, h2, ihr]
        · simp [List.cons_append, runSyncCycleFrom, pushes, stepEntry, triggersPush, h1, h2, ihr]

/-- The cycle never reads the `isSyncing` flag: pushed positions and the
abort outcome are unchanged by rewriting every flag. -/
lemma runSyncCycleFrom_flag (es : List WatchEntry) :
    ∀ i b, (runSyncCycleFrom i (es.map (setSyncingFlag b))).1 = (runSyncCycleFrom i es).1 ∧
      (runSyncCycleFrom i (es.map (setSyncingFlag b))).2.2 = (runSyncCycleFrom i es).2.2 := by
  induction es with
  | nil =>
    intro i b
    exact ⟨rfl, rfl⟩
  | cons e rest ih =>
    intro i b
    have ihr := ih (i + 1) b
    obtain ⟨u, dir, hasf, mt, lu?, sy, pf⟩ := e
    by_cases h1 : (dir || !hasf) = true
    · simp [List.map_cons, runSyncCycleFrom, setSyncingFlag, h1, ihr.1, ihr.2]
    · cases lu? with
      | none => simp [List.map_cons, runSyncCycleFrom, setSyncingFlag, h1, ihr.1, ihr.2]
      | some lu =>
        by_cases h2 : lu < mt
        · cases pf with
          | true => simp [List.map_cons, runSyncCycleFrom, setSyncingFlag, h1, h2]
          | false => simp [List.map_cons, runSyncCycleFrom, setSyncingFlag, h1, h2, ihr.1, ihr.2]
        · simp [List.map_cons, runSyncCycleFrom, setSyncingFlag, h1, h2, ihr.1, ihr.2]

/-- Cancelling the prompt makes `addTarget` a pure filter on the target
list: the optimistic append followed by the rollback filter. -/
lemma addTarget_none (s : ConnState) (target : String) :
    addTarget s target none =
      {s with targets := (s.targets ++ [target]).filter (fun x => x ≠ target),
              persistedTargets := (s.targets ++ [target]).filter (fun x => x ≠ target)} := rfl

/-- C1: in a sync cycle in which every issued push succeeds, a watched
file entry with recorded last-synced time `lu` receives zero pushes when
its observed modification time is not strictly later than `lu` (and is
left unchanged), and exactly one push when it is strictly later, after
which its recorded time equals the observed modification time and its
syncing flag is clear. -/
theorem syncCycle_push_iff_newer (es : List WatchEntry)
    (hok : ∀ e ∈ es, e.pushFails = false) (i : Nat) (hi : i < es.length) (lu : Nat)
    (hd : (es.get ⟨i, hi⟩).isDirectory = false)
    (hf : (es.get ⟨i, hi⟩).hasFile = true)
    (hlu : (es.get ⟨i, hi⟩).lastUpdate = some lu) :
    (runSyncCycle es).2.1 = es.map stepEntry ∧
    (¬ lu < (es.get ⟨i, hi⟩).mtime →
      (runSyncCycle es).1.count i = 0 ∧ stepEntry (es.get ⟨i, hi⟩) = es.get ⟨i, hi⟩) ∧
    (lu < (es.get ⟨i, hi⟩).mtime →
      (runSyncCycle es).1.count i = 1 ∧
      (stepEntry (es.get ⟨i, hi⟩)).lastUpdate = some (es.get ⟨i, hi⟩).mtime ∧
      (stepEntry (es.get ⟨i, hi⟩)).isSyncing = false) := by
  have hrun := runSyncCycleFrom_ok es 0 hok
  have hcount := pushes_count es 0 i hi
  rw [Nat.zero_add] at hcount
  have htrig : triggersPush (es.get ⟨i, hi⟩) = decide (lu < (es.get ⟨i, hi⟩).mtime) := by
    simp only [triggersPush, hd, hf, hlu]
    simp
  unfold runSyncCycle
  rw [hrun]
  dsimp only
  simp only [List.get_eq_getElem] at hd hf hlu hcount htrig ⊢
  refine ⟨?_, ?_, ?_⟩
  · trivial
  · intro hnot
    constructor
    · rw [hcount]
      simp [htrig, hnot]
    · simp only [stepEntry, hd, hf, hlu]
      simp [hnot]
  · intro hm
    refine ⟨?_, ?_, ?_⟩
    · rw [hcount]
      simp [htrig, hm]
    · simp only [stepEntry, hd, hf, hlu]
      simp [hm]
    · simp only [stepEntry, hd, hf, hlu]
      simp [hm]

/-- Witness for C1 at a concrete one-entry watch set. -/
theorem syncCycle_push_iff_newer_witness :
    (runSyncCycle [entryFresh]).1.count 0 = 1 ∧
    (stepEntry entryFresh).lastUpdate = some entryFresh.mtime := by
  have h := syncCycle_push_iff_newer [entryFresh] (by decide) 0 (by decide) 3 rfl rfl rfl
  have h2 := h.2.2 (by decide)
  exact ⟨h2.1, h2.2.1⟩

/-- C2 counterexample: the sync cycle pushes an entry whose syncing flag
is already true — the source never consults the flag before pushing, so
the claimed skip rule is not implemented. -/
theorem syncCycle_pushes_despite_syncing_flag :
    entryFlagged.isSyncing = true ∧ (runSyncCycle [entryFlagged]).1 = [0] := by
  exact ⟨rfl, rfl⟩

/-- C2 amended: the sync cycle's pushes and abort outcome do not depend on
the syncing flag at all; the flag is only written (set before, cleared
after a successful push), never read. -/
theorem syncCycle_ignores_syncing_flag (es : List WatchEntry) (b : Bool) :
    (runSyncCycle (es.map (setSyncingFlag b))).1 = (runSyncCycle es).1 ∧
    (runSyncCycle (es.map (setSyncingFlag b))).2.2 = (runSyncCycle es).2.2 :=
  runSyncCycleFrom_flag es 0 b

/-- C3: with a target selected and a positive page size, `deleteBucket`
issues one object-delete call per listed key (each key exactly once, in
listing order), all strictly before the single bucket-delete call, which
is the final event of the trace. -/
theorem deleteBucket_purges_then_deletes (s : ConnState) (t b : String)
    (keys : List String) (ps : Nat) (ht : s.currentTarget = some t) (hps : 0 < ps) :
    (deleteBucketConn s b keys ps).2 =
      Except.ok (okEvents ((deleteBucketConn s b keys ps).2)) ∧
    (okEvents ((deleteBucketConn s b keys ps).2)).dropLast.filterMap delObjectKey? = keys ∧
    (okEvents ((deleteBucketConn s b keys ps).2)).dropLast.countP
      (fun e => (delObjectKey? e).isSome) = keys.length ∧
    Ev.delBucket b ∉ (okEvents ((deleteBucketConn s b keys ps).2)).dropLast ∧
    (okEvents ((deleteBucketConn s b keys ps).2)).getLast? = some (Ev.delBucket b) := by
  obtain ⟨hkeys, hnob⟩ := purgeObjects_spec ps b hps keys.length keys (Nat.le_refl _)
  have htr : (deleteBucketConn s b keys ps).2 =
      Except.ok (purgeObjects ps b keys ++ [Ev.delBucket b]) := by
    unfold deleteBucketConn
    rw [ht]
    dsimp only
    obtain ⟨s1, c, hgc⟩ := getClient_ok s t
    rw [hgc]
  rw [htr]
  simp only [okEvents, List.dropLast_concat, List.getLast?_concat]
  refine ⟨by trivial, hkeys, by rw [countP_delObj, hkeys], hnob b, by trivial⟩

/-- Witness for C3: a three-object bucket purged with page size two. -/
theorem deleteBucket_purges_then_deletes_witness :
    (deleteBucketConn sampleState "bkt" ["k1", "k2", "k3"] 2).2 =
      Except.ok (okEvents ((deleteBucketConn sampleState "bkt" ["k1", "k2", "k3"] 2).2)) ∧
    (okEvents ((deleteBucketConn sampleState "bkt" ["k1", "k2", "k3"] 2).2)).dropLast.filterMap
      delObjectKey? = ["k1", "k2", "k3"] ∧
    (okEvents ((deleteBucketConn sampleState "bkt" ["k1", "k2", "k3"] 2).2)).dropLast.countP
      (fun e => (delObjectKey? e).isSome) = (["k1", "k2", "k3"] : List String).length ∧
    Ev.delBucket "bkt" ∉
      (okEvents ((deleteBucketConn sampleState "bkt" ["k1", "k2", "k3"] 2).2)).dropLast ∧
    (okEvents ((deleteBucketConn sampleState "bkt" ["k1", "k2", "k3"] 2).2)).getLast? =
      some (Ev.delBucket "bkt") :=
  deleteBucket_purges_then_deletes sampleState "t" "bkt" ["k1", "k2", "k3"] 2 rfl (by decide)

/-- C4 (code bug): with all three secrets absent, `verifySettings` reports
the target unconfigured, yet `getClient` raises no configuration error; it
constructs a client from the empty cached settings and caches it, because
the source tests the unawaited Promise returned by `verifySettings`, which
is always truthy, leaving the error branch unreachable. -/
theorem getClient_ignores_missing_secrets :
    (verifySettings sampleState "t").2 = false ∧
    (getClient sampleState "t").2 =
      Except.ok { region := "EU", endpoint := "", accessKeyId := "",
                  secretAccessKey := "", forcePathStyle := true } ∧
    lookupA "t" (getClient sampleState "t").1.clients =
      some { region := "EU", endpoint := "", accessKeyId := "",
             secretAccessKey := "", forcePathStyle := true } := by
  exact ⟨rfl, rfl, rfl⟩

/-- C5 counterexample: when the name being added already occurs in the
target list, the cancel rollback (a filter on the name) also removes the
pre-existing occurrence, so the persisted list does not return to its
value from before the call. -/
theorem addTarget_cancel_removes_duplicate :
    (addTarget dupState "a" none).targets = [] ∧
    (addTarget dupState "a" none).persistedTargets = [] ∧
    dupState.targets = ["a"] ∧ (([] : List String) ≠ ["a"]) := by
  refine ⟨rfl, rfl, rfl, by decide⟩

/-- C5 amended: if the prompt is cancelled then no secret and no settings
entry is written, and — provided the name was not already configured —
the in-memory and persisted target lists equal their values from before
the call (in general they become the prior list with every occurrence of
the name removed). -/
theorem addTarget_cancel_rolls_back (s : ConnState) (target : String)
    (h : target ∉ s.targets) (hp : s.persistedTargets = s.targets) :
    (addTarget s target none).targets = s.targets ∧
    (addTarget s target none).persistedTargets = s.persistedTargets ∧
    (addTarget s target none).secretStore = s.secretStore ∧
    (addTarget s target none).settings = s.settings := by
  have hfil : s.targets.filter (fun x => x ≠ target) = s.targets := by
    rw [List.filter_eq_self]
    intro a ha
    simp only [decide_eq_true_eq]
    exact fun hc => h (hc ▸ ha)
  have hfull : (s.targets ++ [target]).filter (fun x => x ≠ target) = s.targets := by
    rw [List.filter_append, hfil]
    simp
  rw [addTarget_none]
  exact ⟨hfull, hfull.trans hp.symm, rfl, rfl⟩

/-- Witness for C5 at a state not containing the new name. -/
theorem addTarget_cancel_rolls_back_witness :
    (addTarget sampleState "new" none).targets = sampleState.targets ∧
    (addTarget sampleState "new" none).persistedTargets = sampleState.persistedTargets ∧
    (addTarget sampleState "new" none).secretStore = sampleState.secretStore ∧
    (addTarget sampleState "new" none).settings = sampleState.settings :=
  addTarget_cancel_rolls_back sampleState "new" (by decide) rfl

/-- C6 (code bug): for the root directory "docs" the derived key is
"docs/", but `addDirectory` uploads under "docs//" — the guard
`key.endsWith('/') ? key + '/' : key` appends a second slash precisely
when the key already ends with one, which is always the case for a
directory key. -/
theorem addDirectory_uploads_double_slash :
    getObjectKey (dirFO docsDir) = "docs/" ∧
    addDirectoryKey docsDir = "docs//" ∧
    ("docs//" : String) ≠ "docs/" := by
  refine ⟨rfl, rfl, by decide⟩

/-- C7 counterexample: with no local copy and a remote `lastmodified`
metadata timestamp (100) later than the local clock at fetch time (50),
the first resolve fetches and the immediately following resolve — with no
intervening remote change — fetches again: two fetches, not at most one. -/
theorem resolve_refetches_on_future_timestamp :
    getAndSyncLocalFilePath sampleState "k" none (some 100) 50 =
      Except.ok ("/store/t/bkt/k", some 50, 1) ∧
    getAndSyncLocalFilePath sampleState "k" (some 50) (some 100) 60 =
      Except.ok ("/store/t/bkt/k", some 60, 1) := by
  exact ⟨rfl, rfl⟩

/-- C7 amended: with a target and bucket selected, two successive resolve
calls with no intervening remote change perform at most one fetch in
total — the second call performs none — and return the same local path,
provided the remote `lastmodified` timestamp (when present) is not later
than the local clock at the first call. -/
theorem resolve_idempotent_without_future_timestamp (s : ConnState) (t b key : String)
    (localMtime remoteTs : Option Nat) (now1 now2 : Nat)
    (ht : s.currentTarget = some t) (hb : s.currentBucket = some b)
    (hts : ∀ ts, remoteTs = some ts → ts ≤ now1) :
    resolveFetches (getAndSyncLocalFilePath s key localMtime remoteTs now1) +
      resolveFetches (getAndSyncLocalFilePath s key
        (resolveMtime (getAndSyncLocalFilePath s key localMtime remoteTs now1)) remoteTs now2) ≤ 1 ∧
    resolveFetches (getAndSyncLocalFilePath s key
      (resolveMtime (getAndSyncLocalFilePath s key localMtime remoteTs now1)) remoteTs now2) = 0 ∧
    resolveUri (getAndSyncLocalFilePath s key
      (resolveMtime (getAndSyncLocalFilePath s key localMtime remoteTs now1)) remoteTs now2) =
      resolveUri (getAndSyncLocalFilePath s key localMtime remoteTs now1) := by
  unfold getAndSyncLocalFilePath
  rw [ht, hb]
  dsimp only
  cases localMtime with
  | none =>
    cases remoteTs with
    | none => simp [resolveMtime, resolveFetches, resolveUri]
    | some ts =>
      have hnot : ¬ now1 < ts := fun hlt => absurd (hts ts rfl) (by omega)
      simp [resolveMtime, resolveFetches, resolveUri, hnot]
  | some m =>
    cases remoteTs with
    | none => simp [resolveMtime, resolveFetches, resolveUri]
    | some ts =>
      by_cases hm : m < ts
      · have hnot : ¬ now1 < ts := fun hlt => absurd (hts ts rfl) (by omega)
        simp [resolveMtime, resolveFetches, resolveUri, hm, hnot]
      · simp [resolveMtime, resolveFetches, resolveUri, hm]

/-- Witness for C7 with a past remote timestamp. -/
theorem resolve_idempotent_without_future_timestamp_witness :
    resolveFetches (getAndSyncLocalFilePath sampleState "k" none (some 10) 50) +
      resolveFetches (getAndSyncLocalFilePath sampleState "k"
        (resolveMtime (getAndSyncLocalFilePath sampleState "k" none (some 10) 50))
        (some 10) 60) ≤ 1 ∧
    resolveFetches (getAndSyncLocalFilePath sampleState "k"
      (resolveMtime (getAndSyncLocalFilePath sampleState "k" none (some 10) 50))
      (some 10) 60) = 0 ∧
    resolveUri (getAndSyncLocalFilePath sampleState "k"
      (resolveMtime (getAndSyncLocalFilePath sampleState "k" none (some 10) 50))
      (some 10) 60) =
      resolveUri (getAndSyncLocalFilePath sampleState "k" none (some 10) 50) :=
  resolve_idempotent_without_future_timestamp sampleState "t" "bkt" "k" none (some 10) 50 60
    rfl rfl (fun ts h => by injection h with h2; omega)

/-- C8 counterexample: removing the current target "a" moves the current
target to "x" but leaves the bucket selection — a bucket of "a" — in
place, so switching the target via `removeTarget` does not clear the
dependent bucket selection. -/
theorem removeTarget_keeps_stale_bucket :
    (removeTarget twoTargets "a").currentTarget = some "x" ∧
    (removeTarget twoTargets "a").currentBucket = some "b" ∧
    twoTargets.currentTarget = some "a" ∧ twoTargets.currentBucket = some "b" := by
  refine ⟨rfl, rfl, rfl, rfl⟩

/-- C8 amended: `setTarget` clears the bucket selection, but `removeTarget`
never touches it: removing the current target moves the current target to
the first remaining one (or none) while the bucket selection stays as it
was, so a stale bucket of the removed target can remain selected. -/
theorem setTarget_clears_bucket_removeTarget_not (s : ConnState) (t : String)
    (h : s.currentTarget = some t) :
    (setTarget s t).currentBucket = none ∧
    (removeTarget s t).currentBucket = s.currentBucket ∧
    (removeTarget s t).currentTarget = (s.targets.filter (fun x => x ≠ t)).head? := by
  refine ⟨rfl, rfl, ?_⟩
  unfold removeTarget
  dsimp only
  rw [if_pos h]

/-- Witness for C8 at the two-target state. -/
theorem setTarget_clears_bucket_removeTarget_not_witness :
    (setTarget twoTargets "a").currentBucket = none ∧
    (removeTarget twoTargets "a").currentBucket = twoTargets.currentBucket ∧
    (removeTarget twoTargets "a").currentTarget =
      (twoTargets.targets.filter (fun x => x ≠ "a")).head? :=
  setTarget_clears_bucket_removeTarget_not twoTargets "a" rfl

/-- C9 counterexample: a cycle over a failing entry followed by a healthy
entry with a newer modification aborts after the failure: the healthy
entry is left unchanged and receives no push, although the same entry is
pushed by a cycle that reaches it. -/
theorem syncCycle_failure_blocks_rest :
    runSyncCycle [entryFailing, entryHealthy] =
      ([], [{entryFailing with isSyncing := true}, entryHealthy], true) ∧
    (runSyncCycle [entryHealthy]).1 = [0] := by
  exact ⟨rfl, rfl⟩

/-- C9 amended: a failing push aborts the remainder of the cycle — the
entries before the failure are processed normally, the failing entry
keeps `isSyncing = true` and its old timestamp, the entries after it are
left exactly unchanged and unpushed until the next cycle — while a push
never modifies the target registry (target lists, secret store) or the
current selections. -/
theorem syncCycle_abort_semantics (pre : List WatchEntry) (e : WatchEntry)
    (post : List WatchEntry) (hok : ∀ x ∈ pre, x.pushFails = false)
    (he : triggersPush e = true) (hef : e.pushFails = true) :
    runSyncCycle (pre ++ e :: post) =
      (pushes 0 pre, pre.map stepEntry ++ ({e with isSyncing := true} :: post), true) ∧
    ∀ (s : ConnState) (key : String) (m : Nat),
      (updateFile s key m).1.targets = s.targets ∧
      (updateFile s key m).1.persistedTargets = s.persistedTargets ∧
      (updateFile s key m).1.secretStore = s.secretStore ∧
      (updateFile s key m).1.currentTarget = s.currentTarget ∧
      (updateFile s key m).1.currentBucket = s.currentBucket := by
  constructor
  · exact runSyncCycleFrom_abort post e he hef pre 0 hok
  · intro s key m
    unfold updateFile
    cases hct : s.currentTarget with
    | none => exact ⟨rfl, rfl, rfl, hct, rfl⟩
    | some t =>
      cases hcb : s.currentBucket with
      | none => exact ⟨rfl, rfl, rfl, hct, hcb⟩
      | some b =>
        obtain ⟨s1, c, hgc⟩ := getClient_ok s t
        have hfr := getClient_frame s t
        rw [hgc] at hfr
        dsimp only
        rw [hgc]
        refine ⟨hfr.1, hfr.2.1, hfr.2.2.1, ?_, ?_⟩
        · rw [hfr.2.2.2.1, hct]
        · rw [hfr.2.2.2.2.1, hcb]

/-- Witness for C9: a healthy entry, then a failing one, then another
healthy entry. -/
theorem syncCycle_abort_semantics_witness :
    runSyncCycle ([entryFresh] ++ entryFailing :: [entryHealthy]) =
      (pushes 0 [entryFresh],
       [entryFresh].map stepEntry ++ ({entryFailing with isSyncing := true} :: [entryHealthy]),
       true) :=
  (syncCycle_abort_semantics [entryFresh] entryFailing [entryHealthy]
    (by decide) (by decide) rfl).1

/-- C10 counterexample: `removeTarget` — an operation other than
`selectBucket` and `setTarget` — changes the current-target selection
field when the removed target is current, so those two are not the only
operations that change the selection fields. -/
theorem removeTarget_changes_selection_fields :
    (removeTarget twoTargets "a").currentTarget ≠ twoTargets.currentTarget := by
  decide

/-- C10 amended: `deleteBucket` never modifies the current target or
current bucket selection — in particular, after deleting the currently
selected bucket the selection still names the now-deleted bucket; the
selection fields are changed only by `selectBucket`, `setTarget`, and
`removeTarget` (when the removed target is current). -/
theorem deleteBucket_preserves_selection (s : ConnState) (b : String)
    (keys : List String) (ps : Nat) (hb : s.currentBucket = some b) :
    (deleteBucketConn s b keys ps).1.currentTarget = s.currentTarget ∧
    (deleteBucketConn s b keys ps).1.currentBucket = some b := by
  unfold deleteBucketConn
  cases hct : s.currentTarget with
  | none => exact ⟨hct, hb⟩
  | some t =>
    obtain ⟨s1, c, hgc⟩ := getClient_ok s t
    have hfr := getClient_frame s t
    rw [hgc] at hfr
    dsimp only
    rw [hgc]
    constructor
    · rw [hfr.2.2.2.1, hct]
    · rw [hfr.2.2.2.2.1, hb]

/-- Witness for C10: deleting the currently selected bucket. -/
theorem deleteBucket_preserves_selection_witness :
    (deleteBucketConn sampleState "bkt" ["k"] 1).1.currentTarget = sampleState.currentTarget ∧
    (deleteBucketConn sampleState "bkt" ["k"] 1).1.currentBucket = some "bkt" :=
  deleteBucket_preserves_selection sampleState "bkt" ["k"] 1 rfl

end ExSync
